import Mathlib

/-!
Shallow embedding of `src/exercise.py` (an EC2 inventory/reporting script) and
verification of the specification claims about it.

Modelling conventions:
* Python dictionaries (insertion-ordered, overwrite-in-place) are association
  lists `List (String × α)` with `dget`/`dset` mirroring `d.get(k)` / `d[k] = v`.
* A raw instance is a field dictionary plus a `Tags` list; attribute values are
  the runtime types the script distinguishes: strings, `datetime` objects
  (of which the script only uses `.ctime()`), and other non-sized values
  (represented by an integer payload), for which Python's `len` raises.
* Fallible/aborting control flow (an uncaught exception such as `TypeError`
  from `len`, a `KeyError`, or the script's fatal `fail()` exit inside
  `get_width`) is modelled by `Option`: `none` means the call did not return
  normally.
* The provider (`boto3`) is an external collaborator: a client is either a
  construction error or the finite sequence of responses the provider gives to
  the successive `describe_instances` calls, each response being a page or a
  raised exception.
* `print` output is modelled as the list of emitted lines.
-/

namespace Exercise

/-- A `datetime` value; the script only ever uses its `ctime()` rendering,
so the model carries exactly that. -/
structure Datetime where
  ctime : String
deriving DecidableEq

/-- Runtime value of a raw-instance attribute as the script distinguishes them:
a string, a `datetime` (converted via `ctime`), or any other object without a
`len` (payload irrelevant, carried as an `Int`). -/
inductive AttrValue where
  | str (s : String)
  | dtime (d : Datetime)
  | intv (n : Int)
deriving DecidableEq

/-- One entry of an instance's `Tags` list: a dictionary that may or may not
carry `Key` and `Value` entries (accessed with `tag.get`). -/
structure Tag where
  key : Option String
  value : Option String
deriving DecidableEq

/-- A raw provider instance: a field dictionary (`instance.get(name, default)`)
plus the `Tags` sequence (`instance.get('Tags', [])`; an absent `Tags` key
behaves exactly like an empty list, so both are the empty list here). -/
structure RawInstance where
  fields : List (String × AttrValue)
  tags : List Tag
deriving DecidableEq

/-- `d.get(k)` on a Python dict (keys are unique). -/
def dget {α : Type} : List (String × α) → String → Option α
  | [], _ => none
  | p :: d, k => if p.1 = k then some p.2 else dget d k

/-- `d[k] = v` on a Python dict: overwrite in place if the key exists,
otherwise append (insertion order preserved). -/
def dset {α : Type} : List (String × α) → String → α → List (String × α)
  | [], k, v => [(k, v)]
  | p :: d, k, v => if p.1 = k then (k, v) :: d else p :: dset d k v

/-- The record produced for one instance (`item` in `get_instance_data`). -/
abbrev Record := List (String × AttrValue)

/-- The global `COLUMN_WIDTHS` dictionary. -/
abbrev Widths := List (String × Nat)

/-- `COLUMN_MARGIN` global. -/
def COLUMN_MARGIN : Nat := 2

/-- `DEFAULT_ATTRIBUTES` global. -/
def DEFAULT_ATTRIBUTES : String := "InstanceId,InstanceType,LaunchTime"

/-- The `type(x) is datetime` conversion step:
`item[attribute] = item[attribute].ctime()` when the value is a `datetime`. -/
def convertDatetime : AttrValue → AttrValue
  | .dtime d => .str d.ctime
  | v => v

/-- Python `len` on an attribute value: defined on strings, raises `TypeError`
otherwise (`none`). `datetime` values are converted before `len` is taken, so
only the string case returns. -/
def pyLen : AttrValue → Option Nat
  | .str s => some s.length
  | _ => none

/-- `get_width(column_name)`: a missing column is a fatal `fail()` exit,
modelled as `none`. -/
def get_width (widths : Widths) (column_name : String) : Option Nat :=
  dget widths column_name

/-- One iteration of the attribute loop of `get_instance_data`:
`item[attribute] = instance.get(attribute, '(no attribute key)')`, the
`datetime` conversion, and the width update
`if len(item[attribute]) > get_width(attribute): COLUMN_WIDTHS[attribute] = len(...)`. -/
def normAttr (inst : RawInstance) (iw : Record × Widths) (attrName : String) :
    Option (Record × Widths) :=
  let v := convertDatetime ((dget inst.fields attrName).getD (.str "(no attribute key)"))
  let item := dset iw.1 attrName v
  match pyLen v, get_width iw.2 attrName with
  | some n, some cw => some (item, if cw < n then dset iw.2 attrName n else iw.2)
  | _, _ => none

/-- The attribute loop of `get_instance_data`:
`for attribute in ATTRIBUTES_TO_SHOW: ...`, threading the record under
construction and `COLUMN_WIDTHS`. -/
def attrLoop (inst : RawInstance) : List String → Record × Widths → Option (Record × Widths)
  | [], iw => some iw
  | a :: as, iw =>
      match normAttr inst iw a with
      | none => none
      | some iw2 => attrLoop inst as iw2

/-- The tag loop of `get_instance_data`:
`for tag in instance.get('Tags', []): if tag.get('Key') == TAG_TO_SHOW:
item[TAG_TO_SHOW] = tag.get('Value', '(no value key)')`. -/
def tagLoop (tagName : String) : List Tag → Record → Record
  | [], item => item
  | tg :: tags, item =>
      tagLoop tagName tags
        (if tg.key = some tagName then
          dset item tagName (.str ((tg.value).getD "(no value key)"))
        else item)

/-- The defaulting step
`if item.get(TAG_TO_SHOW) == None: item[TAG_TO_SHOW] = 'unknown'`. -/
def tagUnknown (tagName : String) (item : Record) : Record :=
  if (dget item tagName).isNone then dset item tagName (.str "unknown") else item

/-- `get_instance_data(instance)` for a non-null instance: builds the record
and updates the column widths. `none` models an abnormal exit (a `TypeError`
from `len` on a non-string value, or the fatal `get_width` failure on a column
missing from `COLUMN_WIDTHS`). The Python-level `None` argument short-circuit
(`return` with no record) is outside this model, whose argument is always a
real instance. -/
def get_instance_data (attrs : List String) (tagName : String) (inst : RawInstance)
    (widths : Widths) : Option (Record × Widths) :=
  match attrLoop inst attrs ([], widths) with
  | none => none
  | some iw =>
    match dget (tagUnknown tagName (tagLoop tagName inst.tags iw.1)) tagName with
    | none => none
    | some v =>
      match pyLen v, get_width iw.2 tagName with
      | some n, some cw =>
          some (tagUnknown tagName (tagLoop tagName inst.tags iw.1),
            if cw < n then dset iw.2 tagName n else iw.2)
      | _, _ => none

/-- `init_columns()`: `COLUMNS = [TAG_TO_SHOW] ++ ATTRIBUTES_TO_SHOW`, and
`COLUMN_WIDTHS[column] = len(column)` for each column in order. -/
def init_columns (tagName : String) (attrs : List String) : List String × Widths :=
  let columns := tagName :: attrs
  (columns, columns.foldl (fun w c => dset w c c.length) [])

/-- `s.ljust(w)`: left-justify in a field of width `w`, never truncating. -/
def ljust (s : String) (w : Nat) : String :=
  s ++ String.mk (List.replicate (w - s.length) ' ')

/-- Python `str` view of a record value as used by `ljust` in `print_table`:
only strings have `ljust`, anything else raises (`none`). -/
def asString : AttrValue → Option String
  | .str s => some s
  | _ => none

/-- `print_table(dict_list)`, parametrised by the globals it reads
(`COLUMNS`, `COLUMN_WIDTHS`, `COLUMN_MARGIN`). Returns the printed lines;
`none` models an abnormal exit (fatal `get_width` failure or `ljust` on a
non-string value). An empty record list prints nothing. -/
def print_table (columns : List String) (widths : Widths) (margin : Nat)
    (dict_list : List Record) : Option (List String) :=
  if dict_list.length == 0 then some []
  else do
    let heading ← columns.foldlM
      (fun acc column => do
        let w ← get_width widths column
        pure (acc ++ ljust column (w + margin))) ""
    let rows ← dict_list.mapM (fun d =>
      columns.foldlM
        (fun acc column => do
          let w ← get_width widths column
          let s ← asString ((dget d column).getD (.str ""))
          pure (acc ++ ljust s (w + margin))) "")
    pure (heading :: String.mk (List.replicate (heading.length - margin) '-') :: rows)

/-- Python `<=` on strings restricted to character lists: lexicographic by
code point. -/
def charsLe : List Char → List Char → Bool
  | [], _ => true
  | _ :: _, [] => false
  | a :: as, b :: bs => if a = b then charsLe as bs else decide (a.toNat < b.toNat)

/-- Python `<=` on strings: lexicographic by code point. -/
def strLeB (a b : String) : Bool :=
  charsLe a.data b.data

/-- The sort key `k[TAG_TO_SHOW]` of a record: `none` models a `KeyError`
(absent key) or a non-string key value; on every record the script builds the
key is present and a string. -/
def sortKeyVal (tagName : String) (r : Record) : Option String :=
  match dget r tagName with
  | some (.str s) => some s
  | _ => none

/-- Comparison used by `sorted(results, key=lambda k: k[TAG_TO_SHOW])`:
records compare by their sort-tag string. -/
def recLe (tagName : String) (a b : Record) : Prop :=
  strLeB ((sortKeyVal tagName a).getD "") ((sortKeyVal tagName b).getD "") = true

instance (tagName : String) : DecidableRel (recLe tagName) := fun _ _ =>
  inferInstanceAs (Decidable (_ = true))

/-- `sorted(results, key=lambda k: k[TAG_TO_SHOW])`: Python's `sorted` is a
stable ascending sort, embedded as the stable `List.insertionSort`;
`none` models the `KeyError` raised when some record lacks the key. -/
def sortRecords (tagName : String) (rs : List Record) : Option (List Record) :=
  if rs.all (fun r => (sortKeyVal tagName r).isSome) then
    some (List.insertionSort (recLe tagName) rs)
  else none

/-- One response structure of `describe_instances`: reservation groups of raw
instances, and the optional `NextToken`. -/
structure Page where
  reservations : List (List RawInstance)
  nextToken : Option String
deriving DecidableEq

/-- Outcome of one `describe_instances` call: a raised exception (with its
message) or a response page. -/
inductive PageResult where
  | fail (msg : String)
  | ok (p : Page)
deriving DecidableEq

/-- The instances of one page in iteration order
(`for reservation in ...: for instance in ...`). -/
def pageInstances (p : Page) : List RawInstance :=
  p.reservations.flatten

/-- Normalize a list of raw instances in order, appending each produced
record to the accumulator (`results.append(get_instance_data(instance))`)
and threading `COLUMN_WIDTHS`; `none` models an uncaught exception. -/
def normList (attrs : List String) (tagName : String) :
    List RawInstance → List Record → Widths → Option (List Record × Widths)
  | [], acc, w => some (acc, w)
  | i :: is, acc, w =>
      match get_instance_data attrs tagName i w with
      | none => none
      | some r => normList attrs tagName is (acc ++ [r.1]) r.2

/-- Outcome of the `while True` fetching loop of `get_instances`. -/
inductive FetchResult where
  /-- The modelled response sequence ran out while the loop still wanted a
  page: the environment does not describe what the provider answers next. -/
  | incomplete
  /-- An uncaught exception during normalization killed the process. -/
  | crash
  /-- `describe_instances` raised: warning printed, `None` returned, the
  accumulator discarded; carries `COLUMN_WIDTHS` as mutated so far. -/
  | failed (msg : String) (widths : Widths)
  /-- Normal exit (`NextToken` absent): accumulated records, final widths,
  and the trace of (token passed, page received) pairs of the loop. -/
  | done (recs : List Record) (widths : Widths) (trace : List (String × Page))
deriving DecidableEq

/-- The fetching loop: each `describe_instances(NextToken=next_token)` call
consumes the next provider response; the loop continues with the response's
token while one is present and exits when it is absent. -/
def fetchLoop (attrs : List String) (tagName : String) :
    List PageResult → String → List Record → Widths → FetchResult
  | [], _, _, _ => .incomplete
  | .fail msg :: _, _, _, w => .failed msg w
  | .ok p :: rest, tok, acc, w =>
      match normList attrs tagName (pageInstances p) acc w with
      | none => .crash
      | some (acc2, w2) =>
        match p.nextToken with
        | none => .done acc2 w2 [(tok, p)]
        | some t =>
          match fetchLoop attrs tagName rest t acc2 w2 with
          | .done recs w3 trace => .done recs w3 ((tok, p) :: trace)
          | r => r

/-- What `get_instances` evaluates to: the Python `None` return (all warning
paths), a record list, or an abnormal end of the process/model. -/
inductive RegionResult where
  | pyNone
  | records (rs : List Record)
  | crash
  | incomplete
deriving DecidableEq

/-- The `warn(message)` helper: prints one line
`'WARNING: ' + message`. -/
def warn (message : String) : String :=
  "WARNING: " ++ message

/-- `get_instances(region)` for a non-null region, parametrised by the
globals and by the provider collaborator: `client` is either a construction
error or the finite sequence of page responses. Returns the outcome, the
updated `COLUMN_WIDTHS`, and the lines printed by `warn`/`print`. -/
def get_instances (avail : List String) (attrs : List String) (tagName : String)
    (region : String) (client : Except String (List PageResult)) (widths : Widths) :
    RegionResult × Widths × List String :=
  if region ∈ avail then
    match client with
    | .error e =>
        (.pyNone, widths,
          [warn ("There was a problem creating a client for this region " ++ region ++ "."),
            e])
    | .ok pages =>
      match fetchLoop attrs tagName pages "" [] widths with
      | .incomplete => (.incomplete, widths, [])
      | .crash => (.crash, widths, [])
      | .failed e w2 =>
          (.pyNone, w2,
            [warn ("There was a problem getting the instances in the region "
              ++ region ++ "."), e])
      | .done recs w2 _ =>
        match sortRecords tagName recs with
        | none => (.crash, w2, [])
        | some rs => (.records rs, w2, [])
  else
    (.pyNone, widths,
      [warn ("Region \"" ++ region ++ "\" is not one of the available regions.")])

/-- One iteration of the region loop of `main`: banner, region label, the
`get_instances` call, and — only when a record list came back — the count
line and the table. `none` models an abnormal process exit. -/
def processRegion (avail attrs : List String) (tagName : String)
    (widths : Widths) (rc : String × Except String (List PageResult)) :
    Option (List String × Widths) :=
  let gi := get_instances avail attrs tagName rc.1 rc.2 widths
  let pre := String.mk (List.replicate 80 '*') :: ("REGION: " ++ rc.1) :: gi.2.2
  match gi.1 with
  | .records rs =>
      match print_table (tagName :: attrs) gi.2.1 COLUMN_MARGIN rs with
      | none => none
      | some tbl =>
          some (pre ++ ("Instances: " ++ toString rs.length) :: tbl, gi.2.1)
  | .pyNone => some (pre, gi.2.1)
  | _ => none

/-- The region loop of `main`: each configured region is processed in order,
each paired with its provider behaviour; output lines are concatenated and
`COLUMN_WIDTHS` is threaded through (never reset between regions). -/
def runRegions (avail attrs : List String) (tagName : String) :
    List (String × Except String (List PageResult)) → Widths →
    Option (List String × Widths)
  | [], w => some ([], w)
  | rc :: rest, w =>
      match processRegion avail attrs tagName w rc with
      | none => none
      | some pr =>
          match runRegions avail attrs tagName rest pr.2 with
          | none => none
          | some rr => some (pr.1 ++ rr.1, rr.2)

/-- Python `s.split(sep)` for a single-character separator, on the character
list: splits at every separator, keeping empty segments; the split of the
empty string is `[[]]`. -/
def splitChars (sep : Char) : List Char → List (List Char)
  | [] => [[]]
  | c :: cs =>
      match splitChars sep cs with
      | [] => [[c]]
      | w :: ws => if c = sep then [] :: w :: ws else (c :: w) :: ws

/-- Python `s.split(sep)` for a single-character separator. -/
def pySplit (s : String) (sep : Char) : List String :=
  (splitChars sep s.data).map String.mk

/-- `init_regions()`: fetch available regions, fail fatally if none, default
`REGIONS` to all of them or split the `--regions` argument on commas, fail
fatally if the resulting list is empty. -/
def init_regions (argRegions : Option String) (availableRegions : List String) :
    Except String (List String) :=
  if availableRegions.length < 1 then .error "No available regions were returned."
  else
    let regions :=
      match argRegions with
      | none => availableRegions
      | some s => pySplit s ','
    if regions.length < 1 then .error "List of regions is empty." else .ok regions

/-- `init_attributes()`: default `ATTRIBUTES_TO_SHOW` to the default list or
split the `--attributes` argument on commas, fail fatally if empty. -/
def init_attributes (argAttributes : Option String) : Except String (List String) :=
  let attrs :=
    match argAttributes with
    | none => pySplit DEFAULT_ATTRIBUTES ','
    | some s => pySplit s ','
  if attrs.length == 0 then .error "List of attributes is empty." else .ok attrs

/-- Sample page used in concrete checks: one instance, a continuation token. -/
def pageA : Page :=
  ⟨[[⟨[("InstanceId", .str "i-1")], [⟨some "Owner", some "bob"⟩]⟩]], some "tok1"⟩

/-- Sample page used in concrete checks: one instance, no continuation token. -/
def pageB : Page :=
  ⟨[[⟨[("InstanceId", .str "i-2")], [⟨some "Owner", some "amy"⟩]⟩]], none⟩

/-- Sample page with three instances tagged "b", "a", "a" in append order. -/
def pageC : Page :=
  ⟨[[⟨[("InstanceId", .str "i-1")], [⟨some "Owner", some "b"⟩]⟩,
     ⟨[("InstanceId", .str "i-2")], [⟨some "Owner", some "a"⟩]⟩],
    [⟨[("InstanceId", .str "i-3")], [⟨some "Owner", some "a"⟩]⟩]], none⟩

/-- Values on which the script's stringification is defined: strings, and
`datetime`s (whose conversion yields a string). -/
def strOrTime (v : AttrValue) : Prop :=
  ∃ s, convertDatetime v = .str s

/-- Pointwise growth of the `COLUMN_WIDTHS` dictionary: every tracked column
stays tracked and its width never decreases. -/
def wmono (w w2 : Widths) : Prop :=
  ∀ c n, dget w c = some n → ∃ m, dget w2 c = some m ∧ n ≤ m

/-- The entries of a `Tags` list whose `Key` equals the configured tag name. -/
def matchingTags (tagName : String) (tags : List Tag) : List Tag :=
  tags.filter (fun tg => tg.key = some tagName)

/-- All values stored in a record are strings. -/
def allStr (item : Record) : Prop :=
  ∀ k v, dget item k = some v → ∃ s, v = AttrValue.str s

theorem dget_dset_self {α : Type} (d : List (String × α)) (k : String) (v : α) :
    dget (dset d k v) k = some v := by
  induction d with
  | nil => simp [dget, dset]
  | cons p d ih =>
      by_cases h : p.1 = k
      · simp [dset, h, dget]
      · simp [dset, h, dget, ih]

theorem dget_dset_ne {α : Type} (d : List (String × α)) {k k2 : String} (v : α)
    (h : k2 ≠ k) : dget (dset d k v) k2 = dget d k2 := by
  induction d with
  | nil => simp [dget, dset, Ne.symm h]
  | cons p d ih =>
      by_cases hp : p.1 = k
      · simp [dset, hp, dget, Ne.symm h, hp ▸ Ne.symm h]
      · simp [dset, hp, dget, ih]

theorem isSome_dget_dset {α : Type} (d : List (String × α)) (k k2 : String) (v : α) :
    (dget (dset d k v) k2).isSome ↔ k2 = k ∨ (dget d k2).isSome := by
  by_cases h : k2 = k
  · subst h; simp [dget_dset_self]
  · simp [dget_dset_ne d v h, h]

theorem dget_dset_cases {α : Type} (d : List (String × α)) {k k2 : String} {v u : α}
    (h : dget (dset d k v) k2 = some u) :
    (k2 = k ∧ u = v) ∨ (k2 ≠ k ∧ dget d k2 = some u) := by
  by_cases hk : k2 = k
  · subst hk; rw [dget_dset_self] at h; exact Or.inl ⟨rfl, (Option.some_inj.mp h).symm⟩
  · rw [dget_dset_ne d v hk] at h; exact Or.inr ⟨hk, h⟩

theorem wmono_refl (w : Widths) : wmono w w :=
  fun _ n h => ⟨n, h, Nat.le_refl n⟩

theorem wmono_trans {w1 w2 w3 : Widths} (h1 : wmono w1 w2) (h2 : wmono w2 w3) :
    wmono w1 w3 := by
  intro c n h
  obtain ⟨m, hm, hnm⟩ := h1 c n h
  obtain ⟨m2, hm2, hmm2⟩ := h2 c m hm
  exact ⟨m2, hm2, Nat.le_trans hnm hmm2⟩

theorem wmono_isSome {w1 w2 : Widths} (h : wmono w1 w2) {c : String}
    (hc : (dget w1 c).isSome) : (dget w2 c).isSome := by
  obtain ⟨n, hn⟩ := Option.isSome_iff_exists.mp hc
  obtain ⟨m, hm, _⟩ := h c n hn
  exact Option.isSome_iff_exists.mpr ⟨m, hm⟩

theorem wmono_dset {w : Widths} {k : String} {cw n : Nat}
    (hcw : dget w k = some cw) (hle : cw ≤ n) : wmono w (dset w k n) := by
  intro c m h
  by_cases hk : c = k
  · subst hk
    rw [h] at hcw
    exact ⟨n, dget_dset_self w c n, (Option.some_inj.mp hcw) ▸ hle⟩
  · exact ⟨m, (dget_dset_ne w n hk).trans h, Nat.le_refl m⟩

theorem normAttr_elim {inst : RawInstance} {iw iw2 : Record × Widths} {a : String}
    (h : normAttr inst iw a = some iw2) :
    iw2.1 = dset iw.1 a
        (convertDatetime ((dget inst.fields a).getD (.str "(no attribute key)")))
    ∧ wmono iw.2 iw2.2 := by
  rcases hl : pyLen (convertDatetime ((dget inst.fields a).getD (.str "(no attribute key)")))
    with _ | n
  · simp [normAttr, hl] at h
  · rcases hw : get_width iw.2 a with _ | cw
    · simp [normAttr, hl, hw] at h
    · simp only [normAttr, hl, hw] at h
      obtain ⟨i2, w2⟩ := iw2
      rw [Option.some_inj, Prod.mk.injEq] at h
      obtain ⟨h1, h2⟩ := h
      refine ⟨h1.symm, ?_⟩
      rw [← h2]
      by_cases hcn : cw < n
      · simp only [if_pos hcn]
        exact wmono_dset hw (Nat.le_of_lt hcn)
      · simp only [if_neg hcn]
        exact wmono_refl _

theorem attrLoop_wmono {inst : RawInstance} {as : List String} {iw iw2 : Record × Widths}
    (h : attrLoop inst as iw = some iw2) : wmono iw.2 iw2.2 := by
  induction as generalizing iw with
  | nil =>
      simp only [attrLoop, Option.some_inj] at h
      exact h ▸ wmono_refl _
  | cons a as ih =>
      simp only [attrLoop] at h
      rcases hn : normAttr inst iw a with _ | iw1
      · rw [hn] at h; cases h
      · rw [hn] at h
        exact wmono_trans (normAttr_elim hn).2 (ih h)

theorem attrLoop_dget_ne {inst : RawInstance} {as : List String} {iw iw2 : Record × Widths}
    {k : String} (hk : k ∉ as) (h : attrLoop inst as iw = some iw2) :
    dget iw2.1 k = dget iw.1 k := by
  induction as generalizing iw with
  | nil =>
      simp only [attrLoop, Option.some_inj] at h
      rw [← h]
  | cons a as ih =>
      simp only [attrLoop] at h
      rcases hn : normAttr inst iw a with _ | iw1
      · rw [hn] at h; cases h
      · rw [hn] at h
        rw [ih (fun hh => hk (List.mem_cons_of_mem a hh)) h, (normAttr_elim hn).1]
        exact dget_dset_ne _ _ (List.ne_of_not_mem_cons hk)

theorem attrLoop_dget_mem {inst : RawInstance} {as : List String} {iw iw2 : Record × Widths}
    {a : String} (ha : a ∈ as) (h : attrLoop inst as iw = some iw2) :
    dget iw2.1 a =
      some (convertDatetime ((dget inst.fields a).getD (.str "(no attribute key)"))) := by
  induction as generalizing iw with
  | nil => cases ha
  | cons b as ih =>
      simp only [attrLoop] at h
      rcases hn : normAttr inst iw b with _ | iw1
      · rw [hn] at h; cases h
      · rw [hn] at h
        by_cases hmem : a ∈ as
        · exact ih hmem h
        · have hab : a = b := by
            rcases List.mem_cons.mp ha with h1 | h1
            · exact h1
            · exact absurd h1 hmem
          subst hab
          rw [attrLoop_dget_ne hmem h, (normAttr_elim hn).1, dget_dset_self]

theorem attrLoop_isSome {inst : RawInstance} {as : List String} {iw iw2 : Record × Widths}
    {k : String} (h : attrLoop inst as iw = some iw2) :
    (dget iw2.1 k).isSome ↔ ((dget iw.1 k).isSome ∨ k ∈ as) := by
  induction as generalizing iw with
  | nil =>
      simp only [attrLoop, Option.some_inj] at h
      simp [← h]
  | cons a as ih =>
      simp only [attrLoop] at h
      rcases hn : normAttr inst iw a with _ | iw1
      · rw [hn] at h; cases h
      · rw [hn] at h
        rw [ih h, (normAttr_elim hn).1, isSome_dget_dset]
        simp only [List.mem_cons]
        tauto

theorem attrLoop_allStr {inst : RawInstance} {as : List String} {iw iw2 : Record × Widths}
    (hvals : ∀ a ∈ as, strOrTime ((dget inst.fields a).getD (.str "(no attribute key)")))
    (hstart : allStr iw.1) (h : attrLoop inst as iw = some iw2) : allStr iw2.1 := by
  induction as generalizing iw with
  | nil =>
      simp only [attrLoop, Option.some_inj] at h
      exact h ▸ hstart
  | cons a as ih =>
      simp only [attrLoop] at h
      rcases hn : normAttr inst iw a with _ | iw1
      · rw [hn] at h; cases h
      · rw [hn] at h
        refine ih (fun b hb => hvals b (List.mem_cons_of_mem _ hb)) ?_ h
        intro k v hkv
        rw [(normAttr_elim hn).1] at hkv
        rcases dget_dset_cases _ hkv with ⟨_, hv⟩ | ⟨_, hv⟩
        · obtain ⟨s, hs⟩ := hvals a (List.mem_cons_self a as)
          exact ⟨s, hv.trans hs⟩
        · exact hstart k v hv

theorem attrLoop_total {inst : RawInstance} {as : List String} {iw : Record × Widths}
    (hvals : ∀ a ∈ as, strOrTime ((dget inst.fields a).getD (.str "(no attribute key)")))
    (hw : ∀ a ∈ as, (dget iw.2 a).isSome) :
    ∃ iw2, attrLoop inst as iw = some iw2 := by
  induction as generalizing iw with
  | nil => exact ⟨iw, rfl⟩
  | cons a as ih =>
      obtain ⟨s, hs⟩ := hvals a (List.mem_cons_self a as)
      obtain ⟨cw, hcw⟩ := Option.isSome_iff_exists.mp (hw a (List.mem_cons_self a as))
      have hn : (normAttr inst iw a).isSome := by
        simp only [normAttr, hs, pyLen, get_width, hcw]
        rfl
      obtain ⟨iw1, h1⟩ := Option.isSome_iff_exists.mp hn
      have hmono := (normAttr_elim h1).2
      obtain ⟨iw2, h2⟩ := ih (fun b hb => hvals b (List.mem_cons_of_mem _ hb))
        (fun b hb => wmono_isSome hmono (hw b (List.mem_cons_of_mem _ hb)))
      refine ⟨iw2, ?_⟩
      simp only [attrLoop, h1]
      exact h2

theorem tagLoop_dget_ne {tagName k : String} (hk : k ≠ tagName) (tags : List Tag)
    (item : Record) : dget (tagLoop tagName tags item) k = dget item k := by
  induction tags generalizing item with
  | nil => rfl
  | cons tg tags ih =>
      simp only [tagLoop]
      by_cases h : tg.key = some tagName
      · rw [if_pos h, ih, dget_dset_ne _ _ hk]
      · rw [if_neg h, ih]

theorem tagLoop_dget_tag (tagName : String) (tags : List Tag) (item : Record) :
    dget (tagLoop tagName tags item) tagName =
      (match (matchingTags tagName tags).getLast? with
       | none => dget item tagName
       | some e => some (.str ((e.value).getD "(no value key)"))) := by
  induction tags generalizing item with
  | nil => rfl
  | cons tg tags ih =>
      by_cases h : tg.key = some tagName
      · have hf : matchingTags tagName (tg :: tags) = tg :: matchingTags tagName tags := by
          simp [matchingTags, List.filter_cons, h]
        rw [hf, List.getLast?_cons]
        simp only [tagLoop, if_pos h]
        rw [ih]
        rcases hl : (matchingTags tagName tags).getLast? with _ | e
        · simp [dget_dset_self]
        · simp
      · have hf : matchingTags tagName (tg :: tags) = matchingTags tagName tags := by
          simp [matchingTags, List.filter_cons, h]
        rw [hf]
        simp only [tagLoop, if_neg h]
        rw [ih]

theorem tagUnknown_dget_ne {tagName k : String} (hk : k ≠ tagName) (item : Record) :
    dget (tagUnknown tagName item) k = dget item k := by
  unfold tagUnknown
  by_cases h : (dget item tagName).isNone
  · rw [if_pos h, dget_dset_ne _ _ hk]
  · rw [if_neg h]

theorem tagUnknown_dget_tag (tagName : String) (item : Record) :
    dget (tagUnknown tagName item) tagName =
      (match dget item tagName with
       | none => some (.str "unknown")
       | some v => some v) := by
  unfold tagUnknown
  rcases h : dget item tagName with _ | v
  · simp [dget_dset_self]
  · simp [h]

theorem foldl_initw_ne {l : List String} {w : Widths} {c : String} (h : c ∉ l) :
    dget (l.foldl (fun w x => dset w x x.length) w) c = dget w c := by
  induction l generalizing w with
  | nil => rfl
  | cons x l ih =>
      simp only [List.foldl_cons]
      rw [ih (List.not_mem_of_not_mem_cons h), dget_dset_ne _ _ (List.ne_of_not_mem_cons h)]

theorem foldl_initw_mem {l : List String} {w : Widths} {c : String} (h : c ∈ l) :
    dget (l.foldl (fun w x => dset w x x.length) w) c = some c.length := by
  induction l generalizing w with
  | nil => cases h
  | cons x l ih =>
      simp only [List.foldl_cons]
      by_cases hm : c ∈ l
      · exact ih hm
      · have hcx : c = x := by
          rcases List.mem_cons.mp h with h1 | h1
          · exact h1
          · exact absurd h1 hm
        subst hcx
        rw [foldl_initw_ne hm, dget_dset_self]

theorem init_columns_dget {tagName : String} {attrs : List String} {c : String}
    (h : c ∈ (init_columns tagName attrs).1) :
    dget (init_columns tagName attrs).2 c = some c.length := by
  simp only [init_columns] at h ⊢
  exact foldl_initw_mem h

theorem gid_elim {attrs : List String} {tagName : String} {inst : RawInstance}
    {w : Widths} {item : Record} {w2 : Widths}
    (h : get_instance_data attrs tagName inst w = some (item, w2)) :
    ∃ iw : Record × Widths, attrLoop inst attrs ([], w) = some iw
      ∧ item = tagUnknown tagName (tagLoop tagName inst.tags iw.1)
      ∧ wmono iw.2 w2 := by
  unfold get_instance_data at h
  rcases hal : attrLoop inst attrs ([], w) with _ | iw
  · simp [hal] at h
  · simp only [hal] at h
    rcases hv : dget (tagUnknown tagName (tagLoop tagName inst.tags iw.1)) tagName with _ | v
    · simp [hv] at h
    · simp only [hv] at h
      rcases hn : pyLen v with _ | n
      · simp [hn] at h
      · simp only [hn] at h
        rcases hw : get_width iw.2 tagName with _ | cw
        · simp [hw] at h
        · simp only [hw] at h
          simp only [Option.some_inj, Prod.mk.injEq] at h
          obtain ⟨h1, h2⟩ := h
          refine ⟨iw, rfl, h1.symm, ?_⟩
          rw [← h2]
          by_cases hcn : cw < n
          · rw [if_pos hcn]
            exact wmono_dset hw (Nat.le_of_lt hcn)
          · rw [if_neg hcn]
            exact wmono_refl _

theorem dset_allStr {item : Record} {k : String} {v : AttrValue}
    (h : allStr item) (hs : ∃ s, v = AttrValue.str s) : allStr (dset item k v) := by
  intro k2 u hu
  rcases dget_dset_cases _ hu with ⟨_, hv⟩ | ⟨_, hv⟩
  · obtain ⟨s, hss⟩ := hs
    exact ⟨s, hv.trans hss⟩
  · exact h k2 u hv

theorem tagLoop_allStr {tagName : String} {tags : List Tag} {item : Record}
    (h : allStr item) : allStr (tagLoop tagName tags item) := by
  induction tags generalizing item with
  | nil => exact h
  | cons tg tags ih =>
      simp only [tagLoop]
      by_cases hk : tg.key = some tagName
      · rw [if_pos hk]
        exact ih (dset_allStr h ⟨_, rfl⟩)
      · rw [if_neg hk]
        exact ih h

theorem tagUnknown_allStr {tagName : String} {item : Record} (h : allStr item) :
    allStr (tagUnknown tagName item) := by
  unfold tagUnknown
  by_cases hc : (dget item tagName).isNone
  · rw [if_pos hc]
    exact dset_allStr h ⟨_, rfl⟩
  · rw [if_neg hc]
    exact h

theorem charsLe_refl (l : List Char) : charsLe l l = true := by
  induction l with
  | nil => rfl
  | cons a l ih => simpa [charsLe] using ih

theorem char_toNat_ne {a b : Char} (h : a ≠ b) : a.toNat ≠ b.toNat := by
  intro hn
  apply h
  apply Char.ext
  unfold Char.toNat at hn
  exact UInt32.toNat.inj hn

theorem charsLe_total (l1 l2 : List Char) : charsLe l1 l2 = true ∨ charsLe l2 l1 = true := by
  induction l1 generalizing l2 with
  | nil => exact Or.inl rfl
  | cons a as ih =>
      cases l2 with
      | nil => exact Or.inr rfl
      | cons b bs =>
          by_cases hab : a = b
          · subst hab
            simpa [charsLe] using ih bs
          · have hne := char_toNat_ne hab
            simp only [charsLe, if_neg hab, if_neg (Ne.symm hab), decide_eq_true_eq]
            omega

theorem charsLe_trans : ∀ {l1 l2 l3 : List Char}, charsLe l1 l2 = true →
    charsLe l2 l3 = true → charsLe l1 l3 = true
  | [], _, _, _, _ => rfl
  | _ :: _, [], _, h12, _ => by simp [charsLe] at h12
  | _ :: _, _ :: _, [], _, h23 => by simp [charsLe] at h23
  | a :: as, b :: bs, c :: cs, h12, h23 => by
      by_cases hab : a = b <;> by_cases hbc : b = c
      · have hac : a = c := hab.trans hbc
        simp only [charsLe, if_pos hab, if_pos hbc, if_pos hac] at h12 h23 ⊢
        exact charsLe_trans h12 h23
      · have hac : ¬(a = c) := fun hh => hbc (hab.symm.trans hh)
        simp only [charsLe, if_pos hab, if_neg hbc, if_neg hac, decide_eq_true_eq]
          at h12 h23 ⊢
        rw [hab]
        exact h23
      · have hac : ¬(a = c) := fun hh => hab (hh.trans hbc.symm)
        simp only [charsLe, if_pos hbc, if_neg hab, if_neg hac, decide_eq_true_eq]
          at h12 h23 ⊢
        rw [← hbc]
        exact h12
      · simp only [charsLe, if_neg hab, if_neg hbc, decide_eq_true_eq] at h12 h23
        by_cases hac : a = c
        · have : a.toNat = c.toNat := by rw [hac]
          omega
        · simp only [charsLe, if_neg hac, decide_eq_true_eq]
          omega

theorem strLeB_refl (s : String) : strLeB s s = true :=
  charsLe_refl s.data

theorem strLeB_total (a b : String) : strLeB a b = true ∨ strLeB b a = true :=
  charsLe_total a.data b.data

theorem strLeB_trans {a b c : String} (h1 : strLeB a b = true) (h2 : strLeB b c = true) :
    strLeB a c = true :=
  charsLe_trans h1 h2

theorem recLe_total (tagName : String) (a b : Record) :
    recLe tagName a b ∨ recLe tagName b a :=
  strLeB_total _ _

theorem recLe_trans (tagName : String) {a b c : Record} (h1 : recLe tagName a b)
    (h2 : recLe tagName b c) : recLe tagName a c :=
  strLeB_trans h1 h2

theorem normList_append {attrs : List String} {tagName : String} :
    ∀ (xs : List RawInstance) {ys : List RawInstance} {acc : List Record} {w : Widths},
    normList attrs tagName (xs ++ ys) acc w =
      (match normList attrs tagName xs acc w with
       | none => none
       | some r => normList attrs tagName ys r.1 r.2)
  | [], _, _, _ => rfl
  | i :: is, ys, acc, w => by
      simp only [List.cons_append, normList]
      rcases hg : get_instance_data attrs tagName i w with _ | r
      · simp only
      · exact normList_append is

theorem fetchLoop_done {attrs : List String} {tagName : String} {ps : List Page}
    {plast : Page} {tok : String} {acc recs : List Record} {w wOut : Widths}
    (hts : ∀ p ∈ ps, (p.nextToken).isSome = true) (hlast : plast.nextToken = none)
    (hnorm : normList attrs tagName (((ps ++ [plast]).map pageInstances).flatten) acc w
      = some (recs, wOut)) :
    ∃ trace, fetchLoop attrs tagName ((ps ++ [plast]).map .ok) tok acc w
        = .done recs wOut trace
      ∧ trace.map Prod.fst = tok :: ps.map (fun p => (p.nextToken).getD "")
      ∧ trace.map Prod.snd = ps ++ [plast] := by
  revert hts hnorm
  induction ps generalizing tok acc w recs wOut with
  | nil =>
      intro hts hnorm
      simp only [List.nil_append, List.map_cons, List.map_nil, List.flatten_cons,
        List.flatten_nil, List.append_nil] at hnorm
      refine ⟨[(tok, plast)], ?_, rfl, rfl⟩
      simp only [fetchLoop, hnorm, hlast]
  | cons p ps ih =>
      intro hts hnorm
      obtain ⟨t, ht⟩ := Option.isSome_iff_exists.mp (hts p (List.mem_cons_self p ps))
      simp only [List.cons_append, List.map_cons, List.flatten_cons] at hnorm
      rw [normList_append] at hnorm
      rcases hn1 : normList attrs tagName (pageInstances p) acc w with _ | r
      · simp [hn1] at hnorm
      · simp only [hn1] at hnorm
        obtain ⟨trace, htr, hm1, hm2⟩ :=
          @ih t r.1 recs r.2 wOut (fun q hq => hts q (List.mem_cons_of_mem p hq)) hnorm
        refine ⟨(tok, p) :: trace, ?_, ?_, ?_⟩
        · simp only [List.map_append, List.map_cons, List.map_nil] at htr
          simp only [List.cons_append, List.map_cons, fetchLoop, hn1, ht]
          simp [htr]
        · simp [hm1, ht]
        · simp [hm2]

theorem fetchLoop_fail {attrs : List String} {tagName : String} {ps : List Page}
    {msg : String} {tail : List PageResult} {tok : String} {acc : List Record}
    {w : Widths} {r : List Record × Widths}
    (hts : ∀ p ∈ ps, (p.nextToken).isSome = true)
    (hnorm : normList attrs tagName ((ps.map pageInstances).flatten) acc w = some r) :
    fetchLoop attrs tagName ((ps.map .ok) ++ .fail msg :: tail) tok acc w
      = .failed msg r.2 := by
  revert hts hnorm
  induction ps generalizing tok acc w r with
  | nil =>
      intro hts hnorm
      simp only [List.map_nil, List.flatten_nil, normList, Option.some_inj] at hnorm
      simp only [List.nil_append, fetchLoop, ← hnorm]
  | cons p ps ih =>
      intro hts hnorm
      obtain ⟨t, ht⟩ := Option.isSome_iff_exists.mp (hts p (List.mem_cons_self p ps))
      simp only [List.map_cons, List.flatten_cons] at hnorm
      rw [normList_append] at hnorm
      rcases hn1 : normList attrs tagName (pageInstances p) acc w with _ | r1
      · simp [hn1] at hnorm
      · simp only [hn1] at hnorm
        have hrec := @ih t r1.1 r1.2 r (fun q hq => hts q (List.mem_cons_of_mem p hq)) hnorm
        simp only [List.map_cons, List.cons_append, fetchLoop, hn1, ht]
        simp [hrec]

theorem tagUnknown_isSome_tag (tagName : String) (item : Record) :
    (dget (tagUnknown tagName item) tagName).isSome = true := by
  rw [tagUnknown_dget_tag]
  rcases dget item tagName with _ | v <;> rfl

/-- C1 counterexample: an instance whose tag list contains an entry with the
configured key but no value yields the literal "(no value key)", not
"unknown", contradicting the claim as stated. -/
theorem claim_C1_counterexample :
    (get_instance_data ["InstanceId"] "Owner"
        ⟨[], [⟨some "Owner", none⟩]⟩ [("Owner", 5), ("InstanceId", 10)]).map
        (fun p => dget p.1 "Owner")
      = some (some (.str "(no value key)"))
    ∧ AttrValue.str "(no value key)" ≠ AttrValue.str "unknown" := by
  decide

/-- C1 (amended): if the sort-tag name is not among the configured attribute
names and the tag list has no entry whose key equals it, the record's
sort-tag field is exactly "unknown"; if matching entries exist but the last
one has no value, the field is the literal "(no value key)" instead. -/
theorem claim_C1 {attrs : List String} {tagName : String} {inst : RawInstance}
    {w : Widths} {item : Record} {w2 : Widths}
    (h : get_instance_data attrs tagName inst w = some (item, w2)) :
    (tagName ∉ attrs → matchingTags tagName inst.tags = [] →
      dget item tagName = some (.str "unknown"))
    ∧ (∀ e, (matchingTags tagName inst.tags).getLast? = some e → e.value = none →
        dget item tagName = some (.str "(no value key)")) := by
  obtain ⟨iw, hal, hitem, _⟩ := gid_elim h
  constructor
  · intro hnm hmt
    have e2 := @attrLoop_isSome inst attrs ([], w) iw tagName hal
    simp only [dget, Option.isSome_none] at e2
    have h3 : ¬((dget iw.1 tagName).isSome = true) := by
      intro hs
      rcases e2.mp hs with hfalse | hmem
      · cases hfalse
      · exact hnm hmem
    have h2 : dget iw.1 tagName = none := Option.not_isSome_iff_eq_none.mp h3
    have h1 : dget (tagLoop tagName inst.tags iw.1) tagName = dget iw.1 tagName := by
      rw [tagLoop_dget_tag, hmt]
      rfl
    rw [hitem, tagUnknown_dget_tag, h1, h2]
  · intro e hle hev
    have h1 : dget (tagLoop tagName inst.tags iw.1) tagName
        = some (.str ((e.value).getD "(no value key)")) := by
      rw [tagLoop_dget_tag, hle]
    rw [hev] at h1
    rw [hitem, tagUnknown_dget_tag, h1]
    rfl

/-- Witness for C1 at a concrete tagless instance. -/
theorem claim_C1_witness :
    dget ([("InstanceId", AttrValue.str "(no attribute key)"),
      ("Owner", AttrValue.str "unknown")] : Record) "Owner"
      = some (.str "unknown") :=
  (@claim_C1 ["InstanceId"] "Owner" ⟨[], []⟩ [("Owner", 5), ("InstanceId", 10)]
    [("InstanceId", AttrValue.str "(no attribute key)"),
      ("Owner", AttrValue.str "unknown")]
    [("Owner", 7), ("InstanceId", 18)] (by decide)).1 (by decide) (by decide)

/-- C2 counterexample: when the sort-tag name is itself a configured
attribute, an instance lacking that attribute but carrying a matching tag
entry ends with the tag's value in that field, not the placeholder, so the
placeholder clause of the claim fails as stated. -/
theorem claim_C2_counterexample :
    ("Owner" ∈ (["Owner"] : List String))
    ∧ dget (RawInstance.mk [] [⟨some "Owner", some "alice"⟩]).fields "Owner" = none
    ∧ (get_instance_data ["Owner"] "Owner" ⟨[], [⟨some "Owner", some "alice"⟩]⟩
        [("Owner", 5)]).map (fun p => dget p.1 "Owner")
      = some (some (.str "alice"))
    ∧ AttrValue.str "alice" ≠ AttrValue.str "(no attribute key)" := by
  decide

/-- C2 (amended): every produced record's key set is exactly
{sort-tag-name} ∪ {attribute names}; a configured attribute missing from the
raw instance gets exactly the placeholder "(no attribute key)" provided the
attribute name differs from the sort-tag name. -/
theorem claim_C2 {attrs : List String} {tagName : String} {inst : RawInstance}
    {w : Widths} {item : Record} {w2 : Widths}
    (h : get_instance_data attrs tagName inst w = some (item, w2)) :
    (∀ k, (dget item k).isSome ↔ (k = tagName ∨ k ∈ attrs))
    ∧ (∀ a ∈ attrs, a ≠ tagName → dget inst.fields a = none →
        dget item a = some (.str "(no attribute key)")) := by
  obtain ⟨iw, hal, hitem, _⟩ := gid_elim h
  constructor
  · intro k
    by_cases hk : k = tagName
    · subst hk
      rw [hitem]
      simp [tagUnknown_isSome_tag]
    · have e1 : dget item k = dget iw.1 k := by
        rw [hitem, tagUnknown_dget_ne hk, tagLoop_dget_ne hk]
      have e2 := @attrLoop_isSome inst attrs ([], w) iw k hal
      rw [e1, e2]
      simp [dget, hk]
  · intro a ha hat habs
    have e1 : dget item a = dget iw.1 a := by
      rw [hitem, tagUnknown_dget_ne hat, tagLoop_dget_ne hat]
    rw [e1, attrLoop_dget_mem ha hal, habs]
    rfl

/-- Witness for C2 at a concrete instance lacking its attribute. -/
theorem claim_C2_witness :
    ((dget ([("InstanceId", AttrValue.str "(no attribute key)"),
        ("Owner", AttrValue.str "unknown")] : Record) "InstanceId").isSome
      ↔ ("InstanceId" = "Owner" ∨ "InstanceId" ∈ ["InstanceId"]))
    ∧ dget ([("InstanceId", AttrValue.str "(no attribute key)"),
        ("Owner", AttrValue.str "unknown")] : Record) "InstanceId"
        = some (.str "(no attribute key)") := by
  have hc := @claim_C2 ["InstanceId"] "Owner" ⟨[], []⟩ [("Owner", 5), ("InstanceId", 10)]
    [("InstanceId", AttrValue.str "(no attribute key)"),
      ("Owner", AttrValue.str "unknown")]
    [("Owner", 7), ("InstanceId", 18)] (by decide)
  exact ⟨hc.1 "InstanceId", hc.2 "InstanceId" (by decide) (by decide) (by decide)⟩

/-- C5: after column initialization every tracked width equals its column
name's length, and a successful normalization only grows the width table:
every tracked column keeps a tracked width at least as large, so widths are
monotonically non-decreasing across the run's sequence of normalizations and
never drop below the column name's length. -/
theorem claim_C5 (tagName : String) (attrs : List String) (inst : RawInstance)
    (w : Widths) (item : Record) (w2 : Widths)
    (h : get_instance_data attrs tagName inst w = some (item, w2)) :
    (∀ c ∈ (init_columns tagName attrs).1,
      dget (init_columns tagName attrs).2 c = some c.length)
    ∧ wmono w w2
    ∧ (∀ c, (∃ n, dget w c = some n ∧ c.length ≤ n) →
        ∃ m, dget w2 c = some m ∧ c.length ≤ m) := by
  obtain ⟨iw, hal, _, hmono⟩ := gid_elim h
  have hmono0 : wmono w w2 := wmono_trans (attrLoop_wmono hal) hmono
  refine ⟨fun c hc => init_columns_dget hc, hmono0, ?_⟩
  rintro c ⟨n, hn, hlen⟩
  obtain ⟨m, hm, hnm⟩ := hmono0 c n hn
  exact ⟨m, hm, Nat.le_trans hlen hnm⟩

/-- Witness for C5 at a concrete normalization growing the Owner column. -/
theorem claim_C5_witness :
    ∃ m, dget ([("Owner", 7), ("InstanceId", 10)] : Widths) "Owner" = some m
      ∧ "Owner".length ≤ m :=
  (claim_C5 "Owner" ["InstanceId"] ⟨[("InstanceId", AttrValue.str "i-abc")], []⟩
    [("Owner", 5), ("InstanceId", 10)]
    [("InstanceId", AttrValue.str "i-abc"), ("Owner", AttrValue.str "unknown")]
    [("Owner", 7), ("InstanceId", 10)] (by decide)).2.2 "Owner" ⟨5, by decide⟩

/-- C9: when several tag entries match the configured tag name, the produced
record carries the value of the last matching entry in sequence order. -/
theorem claim_C9 {attrs : List String} {tagName : String} {inst : RawInstance}
    {w : Widths} {item : Record} {w2 : Widths} {e : Tag} {v : String}
    (h : get_instance_data attrs tagName inst w = some (item, w2))
    (_hmany : 1 < (matchingTags tagName inst.tags).length)
    (hlast : (matchingTags tagName inst.tags).getLast? = some e)
    (hval : e.value = some v) :
    dget item tagName = some (.str v) := by
  obtain ⟨iw, hal, hitem, _⟩ := gid_elim h
  have h1 : dget (tagLoop tagName inst.tags iw.1) tagName
      = some (.str ((e.value).getD "(no value key)")) := by
    rw [tagLoop_dget_tag, hlast]
  rw [hval] at h1
  rw [hitem, tagUnknown_dget_tag, h1]
  rfl

/-- Witness for C9: two entries with the same key, the later one wins. -/
theorem claim_C9_witness :
    dget ([("X", AttrValue.str "(no attribute key)"),
      ("T", AttrValue.str "b")] : Record) "T" = some (.str "b") :=
  @claim_C9 ["X"] "T" ⟨[], [⟨some "T", some "a"⟩, ⟨some "T", some "b"⟩]⟩
    [("T", 1), ("X", 1)]
    [("X", AttrValue.str "(no attribute key)"), ("T", AttrValue.str "b")]
    [("T", 1), ("X", 18)] ⟨some "T", some "b"⟩ "b"
    (by decide) (by decide) (by decide) (by decide)

/-- C3: when every page response before the last carries a non-empty
continuation token and the last omits one, the fetching loop requests the
first page with the empty-string token, passes each subsequent request the
previous response's token, consumes every page exactly once in order
(terminating after that finite number of pages), and its accumulator is the
normalization of all pages' instances concatenated in page order, with no
instance lost or duplicated. -/
theorem claim_C3 {attrs : List String} {tagName : String} {ps : List Page} {plast : Page}
    {w : Widths} {recs : List Record} {wOut : Widths}
    (hts : ∀ p ∈ ps, ∃ t, p.nextToken = some t ∧ t ≠ "")
    (hlast : plast.nextToken = none)
    (hnorm : normList attrs tagName (((ps ++ [plast]).map pageInstances).flatten) [] w
      = some (recs, wOut)) :
    ∃ trace, fetchLoop attrs tagName ((ps ++ [plast]).map .ok) "" [] w
        = .done recs wOut trace
      ∧ trace.map Prod.fst = "" :: ps.map (fun p => (p.nextToken).getD "")
      ∧ trace.map Prod.snd = ps ++ [plast]
      ∧ trace.length = ps.length + 1 := by
  have hts2 : ∀ p ∈ ps, (p.nextToken).isSome = true := by
    intro p hp
    obtain ⟨t, ht, _⟩ := hts p hp
    rw [ht]
    rfl
  obtain ⟨trace, h1, h2, h3⟩ := fetchLoop_done hts2 hlast hnorm
  refine ⟨trace, h1, h2, h3, ?_⟩
  have h4 := congrArg List.length h3
  simpa using h4

/-- Witness for C3: two pages, the first with token "tok1". -/
theorem claim_C3_witness :
    ∃ trace,
      fetchLoop ["InstanceId"] "Owner" (([pageA] ++ [pageB]).map PageResult.ok)
          "" [] [("Owner", 5), ("InstanceId", 10)]
        = .done
          [[("InstanceId", AttrValue.str "i-1"), ("Owner", AttrValue.str "bob")],
           [("InstanceId", AttrValue.str "i-2"), ("Owner", AttrValue.str "amy")]]
          [("Owner", 5), ("InstanceId", 10)] trace
      ∧ trace.map Prod.fst = "" :: [pageA].map (fun p => (p.nextToken).getD "")
      ∧ trace.map Prod.snd = [pageA] ++ [pageB]
      ∧ trace.length = 1 + 1 :=
  claim_C3
    (by
      intro p hp
      simp only [List.mem_singleton] at hp
      subst hp
      exact ⟨"tok1", rfl, by decide⟩)
    (by decide) (by decide)

/-- Shared by the C4 argument: once `get_instances` returns the None outcome
with some printed lines, the driver prints exactly the banner, label and
those lines for the region (no count line, no table) and the region loop
continues with the remaining regions from the updated width table. -/
theorem region_fail_tail {avail attrs : List String} {tagName region : String}
    {client : Except String (List PageResult)} {w w2 : Widths} {lines : List String}
    (hgi : get_instances avail attrs tagName region client w = (.pyNone, w2, lines)) :
    processRegion avail attrs tagName w (region, client)
      = some (String.mk (List.replicate 80 '*') :: ("REGION: " ++ region) :: lines, w2)
    ∧ ∀ rest, runRegions avail attrs tagName ((region, client) :: rest) w
        = (match runRegions avail attrs tagName rest w2 with
           | none => none
           | some rr => some ((String.mk (List.replicate 80 '*')
               :: ("REGION: " ++ region) :: lines) ++ rr.1, rr.2)) := by
  have hpr : processRegion avail attrs tagName w (region, client)
      = some (String.mk (List.replicate 80 '*') :: ("REGION: " ++ region) :: lines, w2) := by
    unfold processRegion
    rw [hgi]
  exact ⟨hpr, fun rest => by simp only [runRegions, hpr]⟩

/-- C4: every region-level failure — region name not available, client
construction failure, or a page-fetch failure after k−1 good pages — makes
get_instances return the Python None outcome (not a record list: the k−1
pages' records are discarded and no partial list is returned), with a WARNING
line printed first; for that region the driver prints only the banner, label
and warning lines (no instance count, no table), and the loop still processes
every subsequent region. -/
theorem claim_C4 {avail attrs : List String} {tagName region : String}
    {client : Except String (List PageResult)} {w : Widths}
    (hfail :
      region ∉ avail
      ∨ ((region ∈ avail) ∧ ∃ e, client = .error e)
      ∨ ((region ∈ avail) ∧ ∃ (ps : List Page) (msg : String) (tail : List PageResult)
          (r : List Record × Widths),
          client = .ok ((ps.map PageResult.ok) ++ .fail msg :: tail)
          ∧ (∀ p ∈ ps, (p.nextToken).isSome = true)
          ∧ normList attrs tagName ((ps.map pageInstances).flatten) [] w = some r)) :
    ∃ w2 lines,
      get_instances avail attrs tagName region client w = (.pyNone, w2, lines)
      ∧ (∃ s rest2, lines = warn s :: rest2)
      ∧ processRegion avail attrs tagName w (region, client)
          = some (String.mk (List.replicate 80 '*') :: ("REGION: " ++ region) :: lines, w2)
      ∧ ∀ rest, runRegions avail attrs tagName ((region, client) :: rest) w
          = (match runRegions avail attrs tagName rest w2 with
             | none => none
             | some rr => some ((String.mk (List.replicate 80 '*')
                 :: ("REGION: " ++ region) :: lines) ++ rr.1, rr.2)) := by
  have hgi : ∃ w2 lines,
      get_instances avail attrs tagName region client w = (.pyNone, w2, lines)
      ∧ ∃ s rest2, lines = warn s :: rest2 := by
    rcases hfail with hmode | ⟨hmem, e, hcl⟩ | ⟨hmem, ps, msg, tail, r, hcl, hts, hnorm⟩
    · refine ⟨w, [warn ("Region \"" ++ region ++ "\" is not one of the available regions.")],
        ?_, ⟨_, _, rfl⟩⟩
      unfold get_instances
      rw [if_neg hmode]
    · subst hcl
      refine ⟨w, [warn ("There was a problem creating a client for this region "
        ++ region ++ "."), e], ?_, ⟨_, _, rfl⟩⟩
      unfold get_instances
      rw [if_pos hmem]
    · subst hcl
      have hf := @fetchLoop_fail attrs tagName ps msg tail "" [] w r hts hnorm
      refine ⟨r.2, [warn ("There was a problem getting the instances in the region "
        ++ region ++ "."), msg], ?_, ⟨_, _, rfl⟩⟩
      unfold get_instances
      rw [if_pos hmem]
      simp only [hf]
  obtain ⟨w2, lines, hgi2, hshape⟩ := hgi
  obtain ⟨hpr, hrun⟩ := region_fail_tail hgi2
  exact ⟨w2, lines, hgi2, hshape, hpr, hrun⟩

/-- Witness for C4: an unknown region name is warned about and skipped. -/
theorem claim_C4_witness :
    ∃ w2 lines,
      get_instances ["r1"] ["InstanceId"] "Owner" "r2" (.ok []) [] = (.pyNone, w2, lines)
      ∧ (∃ s rest2, lines = warn s :: rest2)
      ∧ processRegion ["r1"] ["InstanceId"] "Owner" [] ("r2", .ok [])
          = some (String.mk (List.replicate 80 '*') :: ("REGION: " ++ "r2") :: lines, w2)
      ∧ ∀ rest, runRegions ["r1"] ["InstanceId"] "Owner" (("r2", .ok []) :: rest) []
          = (match runRegions ["r1"] ["InstanceId"] "Owner" rest w2 with
             | none => none
             | some rr => some ((String.mk (List.replicate 80 '*')
                 :: ("REGION: " ++ "r2") :: lines) ++ rr.1, rr.2)) :=
  claim_C4 (Or.inl (by decide))

/-- C7: a successful region's returned list is the accumulator sorted
ascending by the sort-tag string (a permutation of it, nothing added or
dropped), and the sort is stable: for every tag value, the records carrying
that value appear in exactly their original append order. -/
theorem claim_C7 {avail attrs : List String} {tagName region : String}
    {pages : List PageResult} {w : Widths} {recs : List Record} {w2 : Widths}
    {trace : List (String × Page)}
    (hmem : region ∈ avail)
    (hfetch : fetchLoop attrs tagName pages "" [] w = .done recs w2 trace)
    (hkeys : ∀ r ∈ recs, (sortKeyVal tagName r).isSome = true) :
    ∃ rs, get_instances avail attrs tagName region (.ok pages) w = (.records rs, w2, [])
      ∧ List.Sorted (recLe tagName) rs
      ∧ rs.Perm recs
      ∧ ∀ v, rs.filter (fun r => sortKeyVal tagName r = some v)
          = recs.filter (fun r => sortKeyVal tagName r = some v) := by
  have hsort : sortRecords tagName recs
      = some (List.insertionSort (recLe tagName) recs) := by
    unfold sortRecords
    rw [if_pos (List.all_eq_true.mpr hkeys)]
  refine ⟨List.insertionSort (recLe tagName) recs, ?_, ?_,
    List.perm_insertionSort _ _, ?_⟩
  · unfold get_instances
    rw [if_pos hmem]
    simp only [hfetch, hsort]
  · haveI h1 : IsTotal Record (recLe tagName) := ⟨recLe_total tagName⟩
    haveI h2 : IsTrans Record (recLe tagName) :=
      ⟨fun _ _ _ ha hb => recLe_trans tagName ha hb⟩
    exact List.sorted_insertionSort _ _
  · intro v
    have hmk : ∀ r ∈ recs.filter (fun r => sortKeyVal tagName r = some v),
        sortKeyVal tagName r = some v := by
      intro r hr
      exact of_decide_eq_true (List.mem_filter.mp hr).2
    have hp : (recs.filter (fun r => sortKeyVal tagName r = some v)).Pairwise
        (recLe tagName) := by
      apply List.pairwise_of_forall_mem_list
      intro a ha b hb
      unfold recLe
      rw [hmk a ha, hmk b hb]
      simp only [Option.getD_some]
      exact strLeB_refl v
    have hsubl := List.sublist_insertionSort hp (List.filter_sublist recs)
    have hcf : (recs.filter (fun r => sortKeyVal tagName r = some v)).filter
        (fun r => sortKeyVal tagName r = some v)
        = recs.filter (fun r => sortKeyVal tagName r = some v) := by
      apply List.filter_eq_self.mpr
      intro a ha
      exact decide_eq_true (hmk a ha)
    have hsub2 := hsubl.filter (fun r => sortKeyVal tagName r = some v)
    rw [hcf] at hsub2
    have hperm := (List.perm_insertionSort (recLe tagName) recs).filter
      (fun r => sortKeyVal tagName r = some v)
    exact (hsub2.eq_of_length hperm.length_eq.symm).symm

/-- Witness for C7: tag values in append order "b","a","a" sort to
"a","a","b" with the two "a" records keeping their relative order. -/
theorem claim_C7_witness :
    ∃ rs, get_instances ["r1"] ["InstanceId"] "Owner" "r1" (.ok [.ok pageC])
        [("Owner", 5), ("InstanceId", 10)]
      = (.records rs, [("Owner", 5), ("InstanceId", 10)], [])
      ∧ List.Sorted (recLe "Owner") rs
      ∧ rs.Perm
          [[("InstanceId", AttrValue.str "i-1"), ("Owner", AttrValue.str "b")],
           [("InstanceId", AttrValue.str "i-2"), ("Owner", AttrValue.str "a")],
           [("InstanceId", AttrValue.str "i-3"), ("Owner", AttrValue.str "a")]]
      ∧ ∀ v,
        rs.filter (fun r => sortKeyVal "Owner" r = some v)
          = List.filter (fun r => sortKeyVal "Owner" r = some v)
            [[("InstanceId", AttrValue.str "i-1"), ("Owner", AttrValue.str "b")],
             [("InstanceId", AttrValue.str "i-2"), ("Owner", AttrValue.str "a")],
             [("InstanceId", AttrValue.str "i-3"), ("Owner", AttrValue.str "a")]] :=
  @claim_C7 ["r1"] ["InstanceId"] "Owner" "r1" [.ok pageC]
    [("Owner", 5), ("InstanceId", 10)]
    [[("InstanceId", AttrValue.str "i-1"), ("Owner", AttrValue.str "b")],
     [("InstanceId", AttrValue.str "i-2"), ("Owner", AttrValue.str "a")],
     [("InstanceId", AttrValue.str "i-3"), ("Owner", AttrValue.str "a")]]
    [("Owner", 5), ("InstanceId", 10)] [("", pageC)]
    (by decide) (by decide) (by decide)

/-- C6 counterexample: with widths Owner→7, InstanceId→10 and margin 2 the
code pads each column to width+margin, so the header is
"Owner" + 4 spaces + "InstanceId" + 2 spaces (21 characters), not the
23-character strings displayed in the claim. -/
theorem claim_C6_counterexample :
    print_table ["Owner", "InstanceId"] [("Owner", 7), ("InstanceId", 10)] 2
      [[("Owner", AttrValue.str "alice"), ("InstanceId", AttrValue.str "i-123")]]
      = some ["Owner    InstanceId  ", "-------------------", "alice    i-123       "]
    ∧ "Owner    InstanceId  " ≠ "Owner      InstanceId  "
    ∧ "alice    i-123       " ≠ "alice      i-123       " := by
  decide

/-- C6 (amended): with widths Owner→7, InstanceId→10 and margin 2 the header
line is "Owner    InstanceId  " and the data line "alice    i-123       "
(each column left-justified to its width plus the margin), separated by a
dash run whose length is the header's length minus one margin; an empty
record list produces no output at all. -/
theorem claim_C6 :
    (print_table ["Owner", "InstanceId"] [("Owner", 7), ("InstanceId", 10)] 2
      [[("Owner", AttrValue.str "alice"), ("InstanceId", AttrValue.str "i-123")]]
      = some [ljust "Owner" (7 + 2) ++ ljust "InstanceId" (10 + 2),
          String.mk (List.replicate
            ((ljust "Owner" (7 + 2) ++ ljust "InstanceId" (10 + 2)).length - 2) '-'),
          ljust "alice" (7 + 2) ++ ljust "i-123" (10 + 2)])
    ∧ ljust "Owner" (7 + 2) ++ ljust "InstanceId" (10 + 2) = "Owner    InstanceId  "
    ∧ ljust "alice" (7 + 2) ++ ljust "i-123" (10 + 2) = "alice    i-123       "
    ∧ print_table ["Owner", "InstanceId"] [("Owner", 7), ("InstanceId", 10)] 2 []
        = some [] := by
  decide

/-- C8 counterexample: an attribute whose runtime value is neither a string
nor a timestamp (here an integer) makes the width update's len call raise, so
get_instance_data returns no record at all: it is not total regardless of the
attribute values' runtime types. -/
theorem claim_C8_counterexample :
    get_instance_data ["A"] "T" ⟨[("A", AttrValue.intv 5)], []⟩ [("T", 1), ("A", 1)]
      = none := by
  decide

/-- C8 (amended): on every non-null raw instance whose attribute values are
strings or timestamps, and with the width table tracking the tag column and
every attribute column, get_instance_data returns a record (the width update
is well-defined, timestamps having been converted to their textual ctime
form) and every value in the returned record is a string. -/
theorem claim_C8 {attrs : List String} {tagName : String} {inst : RawInstance} {w : Widths}
    (hvals : ∀ a ∈ attrs, strOrTime ((dget inst.fields a).getD (.str "(no attribute key)")))
    (hw : ∀ a ∈ attrs, (dget w a).isSome = true)
    (hwt : (dget w tagName).isSome = true) :
    ∃ item w2, get_instance_data attrs tagName inst w = some (item, w2)
      ∧ allStr item := by
  obtain ⟨iw, hal⟩ := @attrLoop_total inst attrs ([], w) hvals hw
  have hstr0 : allStr (([] : Record), w).1 := by
    intro k v hv
    simp [dget] at hv
  have hstr : allStr iw.1 := attrLoop_allStr hvals hstr0 hal
  have hstr1 : allStr (tagUnknown tagName (tagLoop tagName inst.tags iw.1)) :=
    tagUnknown_allStr (tagLoop_allStr hstr)
  obtain ⟨v, hv⟩ := Option.isSome_iff_exists.mp
    (tagUnknown_isSome_tag tagName (tagLoop tagName inst.tags iw.1))
  obtain ⟨s, hs⟩ := hstr1 tagName v hv
  obtain ⟨cw, hcw⟩ := Option.isSome_iff_exists.mp (wmono_isSome (attrLoop_wmono hal) hwt)
  subst hs
  refine ⟨tagUnknown tagName (tagLoop tagName inst.tags iw.1),
    if cw < s.length then dset iw.2 tagName s.length else iw.2, ?_, hstr1⟩
  unfold get_instance_data
  simp only [hal, hv, pyLen, get_width, hcw]

/-- Witness for C8 at an instance with a timestamp attribute. -/
theorem claim_C8_witness :
    ∃ item w2, get_instance_data ["LaunchTime"] "Owner"
      ⟨[("LaunchTime", AttrValue.dtime ⟨"Mon Jun  1 10:00:00 2020"⟩)], []⟩
      [("Owner", 5), ("LaunchTime", 10)] = some (item, w2) ∧ allStr item :=
  claim_C8
    (by
      intro a ha
      simp only [List.mem_singleton] at ha
      subst ha
      exact ⟨"Mon Jun  1 10:00:00 2020", rfl⟩)
    (by decide) (by decide)

theorem splitChars_ne_nil (sep : Char) (l : List Char) : splitChars sep l ≠ [] := by
  induction l with
  | nil => simp [splitChars]
  | cons c cs ih =>
      simp only [splitChars]
      rcases h : splitChars sep cs with _ | ⟨hd, tl⟩
      · exact absurd h ih
      · by_cases hc : c = sep <;> simp [hc]

/-- C10: splitting a provided --regions (or --attributes) string on commas always
yields at least one element (the empty string splits to [""]), so the fatal
"List of regions is empty." and "List of attributes is empty." errors are
unreachable whenever the argument is supplied; in particular an empty
--regions value is processed as the single region "" which, not being an
available region, only triggers the warning path of get_instances, not a
fatal error. -/
theorem claim_C10 (s : String) (avail : List String) (ha : avail ≠ [])
    (hempty : "" ∉ avail) (attrs : List String) (tagName : String)
    (client : Except String (List PageResult)) (w : Widths) :
    1 ≤ (pySplit s ',').length
    ∧ init_regions (some s) avail ≠ .error "List of regions is empty."
    ∧ init_attributes (some s) = .ok (pySplit s ',')
    ∧ init_regions (some "") avail = .ok [""]
    ∧ get_instances avail attrs tagName "" client w
        = (.pyNone, w, [warn ("Region \"\" is not one of the available regions.")]) := by
  have hne := splitChars_ne_nil ',' s.data
  have hlen : 1 ≤ (pySplit s ',').length := by
    unfold pySplit
    rw [List.length_map]
    exact List.length_pos.mpr hne
  have hav : ¬(avail.length < 1) := by
    have := List.length_pos.mpr ha
    omega
  refine ⟨hlen, ?_, ?_, ?_, ?_⟩
  · unfold init_regions
    rw [if_neg hav]
    have h2 : ¬((pySplit s ',').length < 1) := by omega
    rw [if_neg h2]
    simp
  · unfold init_attributes
    have h2 : ¬(((pySplit s ',').length == 0) = true) := by
      simp only [beq_iff_eq]
      omega
    rw [if_neg h2]
  · unfold init_regions
    rw [if_neg hav]
    rfl
  · unfold get_instances
    rw [if_neg hempty]
    rfl

/-- Witness for C10 with a concrete argument string and region list. -/
theorem claim_C10_witness :
    1 ≤ (pySplit "a,b" ',').length
    ∧ init_regions (some "a,b") ["r1"] ≠ .error "List of regions is empty."
    ∧ init_attributes (some "a,b") = .ok (pySplit "a,b" ',')
    ∧ init_regions (some "") ["r1"] = .ok [""]
    ∧ get_instances ["r1"] [] "Owner" "" (.ok []) []
        = (.pyNone, [], [warn ("Region \"\" is not one of the available regions.")]) :=
  claim_C10 "a,b" ["r1"] (by decide) (by decide) [] "Owner" (.ok []) []

end Exercise
